import Mathlib

/-!
Idempotent payment service: embedding and properties.

Shallow embedding of `internal/service/model.go`, `internal/service/payment.go`
and `internal/handler/handler.go`, followed by the properties of the
transaction store and of the HTTP handler built on it.

Conventions of the embedding:
* a Go `string` is a Lean `String`; the code only compares strings for equality;
* a Go `float64` is kept as its bit pattern (`Float64`); the code copies amounts
  and never computes with them;
* a Go `map[string]Transaction` allocated by `make` is a function
  `String → Option Transaction` (lookup and single-key insertion are the only
  map operations in the code);
* a Go `error` result is `Option GoError`, `none` standing for `nil`;
* a method with a pointer receiver takes the receiver state and returns the new one.
-/

namespace Service

/-! ## model.go -/

/-- Go `float64`, represented by its IEEE-754 bit pattern. -/
structure Float64 where
  bits : Nat
deriving DecidableEq, Repr

/-- Go `type TransactionStatus string`. -/
abbrev TransactionStatus := String

def TransactionStatusPending : TransactionStatus := "PENDING"
def TransactionStatusSuccess : TransactionStatus := "SUCCESS"
def TransactionStatusFailed : TransactionStatus := "FAILED"

/-- Go `type Transaction struct`. -/
structure Transaction where
  UserID : String
  Amount : Float64
  TransactionID : String
  Status : TransactionStatus
deriving DecidableEq, Repr

/-! ## payment.go -/

/-- A Go error value made by `errors.New`, identified by its message. -/
structure GoError where
  msg : String
deriving DecidableEq, Repr

/-- Go `var ErrAlreadyProcessed = errors.New("transaction already processed")`. -/
def ErrAlreadyProcessed : GoError := ⟨"transaction already processed"⟩

/-- Go `type PaymentService struct`, without its mutex: `transactions` is the
allocated map. The mutex is modelled separately in the interleaving semantics
below; in the sequential semantics each call runs alone. -/
structure PaymentService where
  transactions : String → Option Transaction

/-- Go `NewPaymentService`: a service with an empty map. -/
def NewPaymentService : PaymentService :=
  { transactions := fun _ => none }

/-- Go map assignment `m[k] = v`. -/
def mapStore (m : String → Option Transaction) (k : String) (v : Transaction) :
    String → Option Transaction :=
  fun k' => if k' = k then some v else m k'

/-- Go `(*PaymentService).ProcessPayment`, run without interference: returns the
pair `(Transaction, error)` and the state of the receiver after the call. -/
def ProcessPayment (p : PaymentService) (t : Transaction) :
    (Transaction × Option GoError) × PaymentService :=
  match p.transactions t.TransactionID with
  | some existingTx => ((existingTx, some ErrAlreadyProcessed), p)
  | none =>
    let t : Transaction := { t with Status := TransactionStatusSuccess }
    ((t, none), { p with transactions := mapStore p.transactions t.TransactionID t })

/-- A finite sequence of `ProcessPayment` calls, one after the other, keeping
only the state of the service. -/
def runCalls (p : PaymentService) (ts : List Transaction) : PaymentService :=
  ts.foldl (fun q t => (ProcessPayment q t).2) p

/-- The invariant of the store: an entry sits under its own id and is `SUCCESS`. -/
def WellKeyed (p : PaymentService) : Prop :=
  ∀ k r, p.transactions k = some r →
    r.TransactionID = k ∧ r.Status = TransactionStatusSuccess

/-! ## payment.go under concurrent callers

Several calls of `ProcessPayment` run on one service. Each call advances one
statement at a time and any call that is able to move may be scheduled next;
`p.mu.Lock()` can only be taken while the mutex is free, and the deferred
`p.mu.Unlock()` runs last, after the return values are set. -/

/-- The point a call of `ProcessPayment` has reached. -/
inductive Phase where
  /-- Before `p.mu.Lock()`. -/
  | start
  /-- The mutex is held and `Unlock` is deferred; before the map lookup. -/
  | locked
  /-- The lookup found no entry; before `t.Status = TransactionStatusSuccess`. -/
  | absent
  /-- Before `p.transactions[t.TransactionID] = t`. -/
  | marked
  /-- The return values are set; before the deferred `p.mu.Unlock()`. -/
  | returning (result : Transaction) (err : Option GoError)
  /-- The call has returned `(result, err)`. -/
  | done (result : Transaction) (err : Option GoError)
deriving DecidableEq, Repr

/-- One running call: its parameter `t` (a local copy) and where it stands. -/
structure Call where
  t : Transaction
  phase : Phase
deriving DecidableEq, Repr

/-- What a call has returned, once it has. -/
def Call.outcome (c : Call) : Option (Transaction × Option GoError) :=
  match c.phase with
  | Phase.done result err => some (result, err)
  | _ => none

/-- The service shared by the calls: its mutex (`true` when locked), its map,
and the calls running on it. -/
structure Shared where
  mu : Bool
  transactions : String → Option Transaction
  calls : List Call

/-- The calls `ProcessPayment(cs[0])`, `ProcessPayment(cs[1])`, ... issued at once
on service `p`, none of them started. -/
def spawn (p : PaymentService) (cs : List Transaction) : Shared :=
  { mu := false, transactions := p.transactions,
    calls := cs.map (fun t => { t := t, phase := Phase.start }) }

/-- Call `i` executes its next statement; `none` when it cannot move (it waits
for the mutex, it has returned, or there is no such call). -/
def step (s : Shared) (i : Nat) : Option Shared :=
  match s.calls[i]? with
  | none => none
  | some c =>
    match c.phase with
    | Phase.start =>
      if s.mu then none
      else some { s with mu := true, calls := s.calls.set i { c with phase := Phase.locked } }
    | Phase.locked =>
      match s.transactions c.t.TransactionID with
      | some existingTx =>
        let c1 : Call := { c with phase := Phase.returning existingTx (some ErrAlreadyProcessed) }
        some { s with calls := s.calls.set i c1 }
      | none => some { s with calls := s.calls.set i { c with phase := Phase.absent } }
    | Phase.absent =>
      let c1 : Call := { t := { c.t with Status := TransactionStatusSuccess }, phase := Phase.marked }
      some { s with calls := s.calls.set i c1 }
    | Phase.marked =>
      let c1 : Call := { c with phase := Phase.returning c.t none }
      some { s with transactions := mapStore s.transactions c.t.TransactionID c.t,
                    calls := s.calls.set i c1 }
    | Phase.returning result err =>
      let c1 : Call := { c with phase := Phase.done result err }
      some { s with mu := false, calls := s.calls.set i c1 }
    | Phase.done _ _ => none

/-- An interleaving: the calls named by the schedule move in turn, each of them
able to move when it is scheduled. -/
def exec (s : Shared) : List Nat → Option Shared
  | [] => some s
  | i :: rest =>
    match step s i with
    | none => none
    | some s1 => exec s1 rest

/-- Whether a call is between `Lock` and `Unlock`. -/
def Phase.critical : Phase → Bool
  | Phase.locked => true
  | Phase.absent => true
  | Phase.marked => true
  | Phase.returning _ _ => true
  | _ => false

/-- Whether a call is the one that inserted: it returns a `nil` error. -/
def Phase.won : Phase → Bool
  | Phase.returning _ none => true
  | Phase.done _ none => true
  | _ => false

/-- Number of statements a call may still execute. -/
def Phase.fuel : Phase → Nat
  | Phase.start => 5
  | Phase.locked => 4
  | Phase.absent => 3
  | Phase.marked => 2
  | Phase.returning _ _ => 1
  | Phase.done _ _ => 0

/-- Statements still to be executed by all calls together. -/
def Shared.fuel (s : Shared) : Nat :=
  (s.calls.map (fun c => c.phase.fuel)).sum

/-- What holds of call `c`, issued with candidate `t0`, when the map holds
`stored` under the common id. -/
def Call.consistent (t0 : Transaction) (stored : Option Transaction) (c : Call) : Prop :=
  match c.phase with
  | Phase.start => c.t = t0
  | Phase.locked => c.t = t0
  | Phase.absent => c.t = t0 ∧ stored = none
  | Phase.marked => c.t = { t0 with Status := TransactionStatusSuccess } ∧ stored = none
  | Phase.returning result err =>
    stored = some result ∧
    (err = none → result = { t0 with Status := TransactionStatusSuccess }) ∧
    (err = none ∨ err = some ErrAlreadyProcessed)
  | Phase.done result err =>
    stored = some result ∧
    (err = none → result = { t0 with Status := TransactionStatusSuccess }) ∧
    (err = none ∨ err = some ErrAlreadyProcessed)

/-- The invariant of the interleaved calls `cs`, all with id `k`. -/
structure Shared.Inv (k : String) (cs : List Transaction) (s : Shared) : Prop where
  len : s.calls.length = cs.length
  ids : ∀ t : Transaction, t ∈ cs → t.TransactionID = k
  local_ok : ∀ (i : Nat) (c : Call) (t0 : Transaction),
    s.calls[i]? = some c → cs[i]? = some t0 → c.consistent t0 (s.transactions k)
  excl : ∀ (i j : Nat) (ci cj : Call), s.calls[i]? = some ci → s.calls[j]? = some cj →
    ci.phase.critical = true → cj.phase.critical = true → i = j
  held : s.mu = true ↔ ∃ (i : Nat) (c : Call), s.calls[i]? = some c ∧ c.phase.critical = true
  one_winner : ∀ (i j : Nat) (ci cj : Call), s.calls[i]? = some ci → s.calls[j]? = some cj →
    ci.phase.won = true → cj.phase.won = true → i = j
  has_winner : (s.transactions k).isSome = true →
    ∃ (i : Nat) (c : Call), s.calls[i]? = some c ∧ c.phase.won = true

end Service

/-! ## net/http, as far as the handler uses it -/

namespace Http

/-- Go `http.Header`, a map from (canonical) header name to its values. -/
abbrev Header := String → List String

/-- Go `Header.Set`: replaces the values of `key` by the single value `value`. -/
def Header.Set (h : Header) (key value : String) : Header :=
  fun k => if k = key then [value] else h k

/-- Go `Header.Del`. -/
def Header.Del (h : Header) (key : String) : Header :=
  fun k => if k = key then [] else h k

/-- Go `Header.Get`: the first value of `key`, or the empty string. -/
def Header.Get (h : Header) (key : String) : String :=
  (h key).headD ""

def MethodPost : String := "POST"
def StatusOK : Nat := 200
def StatusCreated : Nat := 201
def StatusBadRequest : Nat := 400
def StatusMethodNotAllowed : Nat := 405
def StatusInternalServerError : Nat := 500

/-- State of a Go `http.ResponseWriter`, following the contract documented on
the interface: `header` is the map handed out by `Header()`; `WriteHeader`
sends the status line together with the headers as they are at that moment
(`sent`), and changes made to the map afterwards have no effect on the
response; `body` is what `Write` has sent. -/
structure ResponseWriter where
  header : Header
  wroteHeader : Bool
  code : Nat
  sent : Header
  body : String

/-- A writer on which nothing has been set or written (`httptest.NewRecorder`,
or the writer the server hands to a handler). -/
def NewRecorder : ResponseWriter :=
  { header := fun _ => [], wroteHeader := false, code := StatusOK,
    sent := fun _ => [], body := "" }

/-- Go `ResponseWriter.Header().Set(key, value)`. -/
def ResponseWriter.SetHeader (w : ResponseWriter) (key value : String) : ResponseWriter :=
  { w with header := w.header.Set key value }

/-- Go `ResponseWriter.WriteHeader`: the first call commits the status code and
the current headers; a later call is superfluous and ignored. -/
def ResponseWriter.WriteHeader (w : ResponseWriter) (statusCode : Nat) : ResponseWriter :=
  if w.wroteHeader then w
  else { w with wroteHeader := true, code := statusCode, sent := w.header }

/-- Go `ResponseWriter.Write`: calls `WriteHeader(http.StatusOK)` if the header
has not been written yet, then sends the data. -/
def ResponseWriter.Write (w : ResponseWriter) (data : String) : ResponseWriter :=
  let w1 := if w.wroteHeader then w else w.WriteHeader StatusOK
  { w1 with body := w1.body ++ data }

/-- Go `http.Error`: a plain-text reply with the given status code. -/
def Error (w : ResponseWriter) (error : String) (code : Nat) : ResponseWriter :=
  let h := ((w.header.Del "Content-Length").Set "Content-Type" "text/plain; charset=utf-8").Set
    "X-Content-Type-Options" "nosniff"
  (({ w with header := h } : ResponseWriter).WriteHeader code).Write (error ++ "\n")

/-- Go `*http.Request`, as far as `Pay` reads it. -/
structure Request where
  Method : String
  Body : String

end Http

/-! ## handler.go -/

namespace Api

open Service Http

/-- Go `type Handler struct`. -/
structure Handler where
  Service : PaymentService

/-- Go `NewHandler`. -/
def NewHandler (service : PaymentService) : Handler :=
  { Service := service }

/-- The end of Go `(*Handler).Pay`, after the status has been chosen: sets the
content type on the header map and encodes `result` into the writer.
`jsonEncode` is what `json.NewEncoder(w).Encode(result)` hands to `w.Write`
(`none` when marshalling fails, in which case nothing is written). -/
def writeResult (jsonEncode : Transaction → Option String) (w : ResponseWriter)
    (result : Transaction) : ResponseWriter :=
  let w1 := w.SetHeader "Content-Type" "application/json"
  match jsonEncode result with
  | none => w1
  | some data => w1.Write data

/-- Body of Go `(*Handler).Pay`, with the call `h.Service.ProcessPayment(req)`
going through `process`. `jsonDecode` is `json.NewDecoder(r.Body).Decode(&req)`
(`none` when it returns an error); it and `jsonEncode` belong to
`encoding/json`. -/
def PayVia (process : PaymentService → Transaction → (Transaction × Option GoError) × PaymentService)
    (jsonDecode : String → Option Transaction) (jsonEncode : Transaction → Option String)
    (h : Handler) (w : ResponseWriter) (r : Request) : Handler × ResponseWriter :=
  if r.Method ≠ MethodPost then
    (h, Http.Error w "Method not allowed" StatusMethodNotAllowed)
  else
    match jsonDecode r.Body with
    | none => (h, Http.Error w "invalid request body format" StatusBadRequest)
    | some req =>
      let out := process h.Service req
      let result := out.1.1
      let err := out.1.2
      let h1 : Handler := { h with Service := out.2 }
      if err = some ErrAlreadyProcessed then
        (h1, writeResult jsonEncode (w.WriteHeader StatusOK) result)
      else if err ≠ none then
        (h1, Http.Error w "internal server error" StatusInternalServerError)
      else
        (h1, writeResult jsonEncode (w.WriteHeader StatusCreated) result)

/-- Go `(*Handler).Pay`. -/
def Pay (jsonDecode : String → Option Transaction) (jsonEncode : Transaction → Option String)
    (h : Handler) (w : ResponseWriter) (r : Request) : Handler × ResponseWriter :=
  PayVia ProcessPayment jsonDecode jsonEncode h w r

end Api

/-! # Properties -/

namespace Service

/-! ## Basic facts about `ProcessPayment` -/

theorem PaymentService.ext_transactions {p q : PaymentService}
    (h : ∀ k, p.transactions k = q.transactions k) : p = q := by
  cases p; cases q
  simp only [PaymentService.mk.injEq]
  exact funext h

theorem ProcessPayment_of_absent (p : PaymentService) (t : Transaction)
    (h : p.transactions t.TransactionID = none) :
    ProcessPayment p t =
      (({ t with Status := TransactionStatusSuccess }, none),
        { transactions := mapStore p.transactions t.TransactionID
            { t with Status := TransactionStatusSuccess } }) := by
  simp [ProcessPayment, h]

theorem ProcessPayment_of_present (p : PaymentService) (t r : Transaction)
    (h : p.transactions t.TransactionID = some r) :
    ProcessPayment p t = ((r, some ErrAlreadyProcessed), p) := by
  simp [ProcessPayment, h]

theorem ProcessPayment_keeps (p : PaymentService) (t : Transaction) (k : String)
    (r : Transaction) (h : p.transactions k = some r) :
    (ProcessPayment p t).2.transactions k = some r := by
  cases hl : p.transactions t.TransactionID with
  | some e => rw [ProcessPayment_of_present p t e hl]; exact h
  | none =>
    rw [ProcessPayment_of_absent p t hl]
    have hne : k ≠ t.TransactionID := by
      intro hk
      rw [hk, hl] at h
      exact Option.noConfusion h
    simp [mapStore, hne, h]

theorem ProcessPayment_other_key (p : PaymentService) (t : Transaction) (k : String)
    (hne : k ≠ t.TransactionID) :
    (ProcessPayment p t).2.transactions k = p.transactions k := by
  cases hl : p.transactions t.TransactionID with
  | some e => rw [ProcessPayment_of_present p t e hl]
  | none =>
    rw [ProcessPayment_of_absent p t hl]
    simp [mapStore, hne]

theorem runCalls_keeps (ts : List Transaction) :
    ∀ (p : PaymentService) (k : String) (r : Transaction),
      p.transactions k = some r → (runCalls p ts).transactions k = some r := by
  induction ts with
  | nil => intro p k r h; exact h
  | cons t ts ih =>
    intro p k r h
    exact ih (ProcessPayment p t).2 k r (ProcessPayment_keeps p t k r h)

theorem WellKeyed_new : WellKeyed NewPaymentService := by
  intro k r h
  exact Option.noConfusion h

theorem WellKeyed_step (p : PaymentService) (t : Transaction) (hp : WellKeyed p) :
    WellKeyed (ProcessPayment p t).2 := by
  intro k r h
  cases hl : p.transactions t.TransactionID with
  | some e =>
    rw [ProcessPayment_of_present p t e hl] at h
    exact hp k r h
  | none =>
    rw [ProcessPayment_of_absent p t hl] at h
    by_cases hk : k = t.TransactionID
    · simp [mapStore, hk] at h
      subst h
      exact ⟨hk.symm, rfl⟩
    · simp [mapStore, hk] at h
      exact hp k r h

theorem WellKeyed_runCalls (ts : List Transaction) :
    ∀ p : PaymentService, WellKeyed p → WellKeyed (runCalls p ts) := by
  induction ts with
  | nil => intro p hp; exact hp
  | cons t ts ih => intro p hp; exact ih _ (WellKeyed_step p t hp)

/-! ## Claims about the store -/

/-- C1 (P1, idempotency): when id `k` is not yet recorded and `A`, `B` both carry
id `k`, `ProcessPayment A` returns no error, the following `ProcessPayment B`
returns `ErrAlreadyProcessed`, and the record of the second call is the record
of the first, with the user id and amount of `A`. -/
theorem C1_idempotent (p : PaymentService) (k : String) (A B : Transaction)
    (hA : A.TransactionID = k) (hB : B.TransactionID = k)
    (hk : p.transactions k = none) :
    (ProcessPayment p A).1.2 = none ∧
    (ProcessPayment (ProcessPayment p A).2 B).1.2 = some ErrAlreadyProcessed ∧
    (ProcessPayment (ProcessPayment p A).2 B).1.1 = (ProcessPayment p A).1.1 ∧
    (ProcessPayment (ProcessPayment p A).2 B).1.1.UserID = A.UserID ∧
    (ProcessPayment (ProcessPayment p A).2 B).1.1.Amount = A.Amount := by
  subst hA
  rw [ProcessPayment_of_absent p A hk]
  have hB2 : (mapStore p.transactions A.TransactionID
      { A with Status := TransactionStatusSuccess }) B.TransactionID
      = some { A with Status := TransactionStatusSuccess } := by
    simp [mapStore, hB]
  rw [ProcessPayment_of_present _ B _ hB2]
  exact ⟨rfl, rfl, rfl, rfl, rfl⟩

theorem C1_idempotent_witness :
    NewPaymentService.transactions "tx1" = none ∧
    (ProcessPayment NewPaymentService ⟨"u1", ⟨100⟩, "tx1", ""⟩).1.2 = none ∧
    (ProcessPayment (ProcessPayment NewPaymentService ⟨"u1", ⟨100⟩, "tx1", ""⟩).2
      ⟨"u2", ⟨50⟩, "tx1", "PENDING"⟩).1.2 = some ErrAlreadyProcessed ∧
    (ProcessPayment (ProcessPayment NewPaymentService ⟨"u1", ⟨100⟩, "tx1", ""⟩).2
      ⟨"u2", ⟨50⟩, "tx1", "PENDING"⟩).1.1
      = (ProcessPayment NewPaymentService ⟨"u1", ⟨100⟩, "tx1", ""⟩).1.1 ∧
    (ProcessPayment (ProcessPayment NewPaymentService ⟨"u1", ⟨100⟩, "tx1", ""⟩).2
      ⟨"u2", ⟨50⟩, "tx1", "PENDING"⟩).1.1.UserID = "u1" ∧
    (ProcessPayment (ProcessPayment NewPaymentService ⟨"u1", ⟨100⟩, "tx1", ""⟩).2
      ⟨"u2", ⟨50⟩, "tx1", "PENDING"⟩).1.1.Amount = ⟨100⟩ :=
  ⟨rfl, C1_idempotent NewPaymentService "tx1" ⟨"u1", ⟨100⟩, "tx1", ""⟩
    ⟨"u2", ⟨50⟩, "tx1", "PENDING"⟩ rfl rfl rfl⟩

/-- C2 (P5, no mutation after recording): once `k` is recorded with record `r`,
the store still maps `k` to `r` after any finite sequence of further
`ProcessPayment` calls, whatever the candidates are. -/
theorem C2_no_mutation (p : PaymentService) (k : String) (r : Transaction)
    (ts : List Transaction) (h : p.transactions k = some r) :
    (runCalls p ts).transactions k = some r :=
  runCalls_keeps ts p k r h

theorem C2_no_mutation_witness :
    (ProcessPayment NewPaymentService ⟨"u1", ⟨100⟩, "tx1", ""⟩).2.transactions "tx1"
      = some ⟨"u1", ⟨100⟩, "tx1", "SUCCESS"⟩ ∧
    (runCalls (ProcessPayment NewPaymentService ⟨"u1", ⟨100⟩, "tx1", ""⟩).2
      [⟨"u2", ⟨50⟩, "tx1", "FAILED"⟩, ⟨"u3", ⟨7⟩, "tx2", ""⟩,
       ⟨"", ⟨0⟩, "tx1", "PENDING"⟩]).transactions "tx1"
      = some ⟨"u1", ⟨100⟩, "tx1", "SUCCESS"⟩ :=
  ⟨by decide, C2_no_mutation _ "tx1" _ _ (by decide)⟩

/-- C4 (P3, distinctness): for candidates `A`, `B` with distinct ids, both not
yet recorded, both calls return no error in either order, each call returns
the same record in either order, the final store is the same for both orders,
and a call never changes what is stored under another id. -/
theorem C4_distinct (p : PaymentService) (A B : Transaction)
    (hne : A.TransactionID ≠ B.TransactionID)
    (hA : p.transactions A.TransactionID = none)
    (hB : p.transactions B.TransactionID = none) :
    ((ProcessPayment p A).1.2 = none ∧
      (ProcessPayment (ProcessPayment p A).2 B).1.2 = none) ∧
    ((ProcessPayment p B).1.2 = none ∧
      (ProcessPayment (ProcessPayment p B).2 A).1.2 = none) ∧
    (ProcessPayment (ProcessPayment p B).2 A).1.1 = (ProcessPayment p A).1.1 ∧
    (ProcessPayment (ProcessPayment p A).2 B).1.1 = (ProcessPayment p B).1.1 ∧
    (ProcessPayment (ProcessPayment p A).2 B).2
      = (ProcessPayment (ProcessPayment p B).2 A).2 ∧
    (∀ k, k ≠ A.TransactionID →
      (ProcessPayment p A).2.transactions k = p.transactions k) := by
  have hAB : (ProcessPayment p A).2.transactions B.TransactionID = none := by
    rw [ProcessPayment_other_key p A _ (Ne.symm hne)]; exact hB
  have hBA : (ProcessPayment p B).2.transactions A.TransactionID = none := by
    rw [ProcessPayment_other_key p B _ hne]; exact hA
  rw [ProcessPayment_of_absent _ B hAB, ProcessPayment_of_absent _ A hBA,
    ProcessPayment_of_absent p A hA, ProcessPayment_of_absent p B hB]
  refine ⟨⟨rfl, rfl⟩, ⟨rfl, rfl⟩, rfl, rfl, ?_, ?_⟩
  · apply PaymentService.ext_transactions
    intro k
    simp only [mapStore]
    by_cases h1 : k = A.TransactionID
    · have h2 : k ≠ B.TransactionID := fun h => hne (h1.symm.trans h)
      simp [h1, hne]
    · simp [h1]
  · intro k hk
    simp [mapStore, hk]

theorem C4_distinct_witness :
    ((ProcessPayment NewPaymentService ⟨"u1", ⟨100⟩, "tx1", ""⟩).1.2 = none ∧
      (ProcessPayment (ProcessPayment NewPaymentService ⟨"u1", ⟨100⟩, "tx1", ""⟩).2
        ⟨"u2", ⟨50⟩, "tx2", ""⟩).1.2 = none) ∧
    ((ProcessPayment NewPaymentService ⟨"u2", ⟨50⟩, "tx2", ""⟩).1.2 = none ∧
      (ProcessPayment (ProcessPayment NewPaymentService ⟨"u2", ⟨50⟩, "tx2", ""⟩).2
        ⟨"u1", ⟨100⟩, "tx1", ""⟩).1.2 = none) ∧
    (ProcessPayment (ProcessPayment NewPaymentService ⟨"u2", ⟨50⟩, "tx2", ""⟩).2
        ⟨"u1", ⟨100⟩, "tx1", ""⟩).1.1
      = (ProcessPayment NewPaymentService ⟨"u1", ⟨100⟩, "tx1", ""⟩).1.1 ∧
    (ProcessPayment (ProcessPayment NewPaymentService ⟨"u1", ⟨100⟩, "tx1", ""⟩).2
        ⟨"u2", ⟨50⟩, "tx2", ""⟩).1.1
      = (ProcessPayment NewPaymentService ⟨"u2", ⟨50⟩, "tx2", ""⟩).1.1 ∧
    (ProcessPayment (ProcessPayment NewPaymentService ⟨"u1", ⟨100⟩, "tx1", ""⟩).2
        ⟨"u2", ⟨50⟩, "tx2", ""⟩).2
      = (ProcessPayment (ProcessPayment NewPaymentService ⟨"u2", ⟨50⟩, "tx2", ""⟩).2
        ⟨"u1", ⟨100⟩, "tx1", ""⟩).2 ∧
    (∀ k, k ≠ "tx1" →
      (ProcessPayment NewPaymentService ⟨"u1", ⟨100⟩, "tx1", ""⟩).2.transactions k
        = NewPaymentService.transactions k) :=
  C4_distinct NewPaymentService ⟨"u1", ⟨100⟩, "tx1", ""⟩ ⟨"u2", ⟨50⟩, "tx2", ""⟩
    (by decide) rfl rfl

/-- C5 (P4, status assignment): for a candidate `t` whose id is not yet recorded,
`ProcessPayment t` returns, without error, a record with status `SUCCESS` and
the user id, amount and transaction id of `t`, whatever status `t` carried;
the store then holds that record under the id of `t`. -/
theorem C5_status_assignment (p : PaymentService) (t : Transaction)
    (h : p.transactions t.TransactionID = none) :
    (ProcessPayment p t).1.2 = none ∧
    (ProcessPayment p t).1.1.Status = TransactionStatusSuccess ∧
    (ProcessPayment p t).1.1.UserID = t.UserID ∧
    (ProcessPayment p t).1.1.Amount = t.Amount ∧
    (ProcessPayment p t).1.1.TransactionID = t.TransactionID ∧
    (ProcessPayment p t).2.transactions t.TransactionID
      = some (ProcessPayment p t).1.1 := by
  rw [ProcessPayment_of_absent p t h]
  refine ⟨rfl, rfl, rfl, rfl, rfl, ?_⟩
  simp [mapStore]

theorem C5_status_assignment_witness :
    NewPaymentService.transactions "tx9" = none ∧
    (ProcessPayment NewPaymentService ⟨"u1", ⟨3⟩, "tx9", "FAILED"⟩).1.2 = none ∧
    (ProcessPayment NewPaymentService ⟨"u1", ⟨3⟩, "tx9", "FAILED"⟩).1.1.Status
      = TransactionStatusSuccess ∧
    (ProcessPayment NewPaymentService ⟨"u1", ⟨3⟩, "tx9", "FAILED"⟩).1.1.UserID = "u1" ∧
    (ProcessPayment NewPaymentService ⟨"u1", ⟨3⟩, "tx9", "FAILED"⟩).1.1.Amount = ⟨3⟩ ∧
    (ProcessPayment NewPaymentService ⟨"u1", ⟨3⟩, "tx9", "FAILED"⟩).1.1.TransactionID
      = "tx9" ∧
    (ProcessPayment NewPaymentService ⟨"u1", ⟨3⟩, "tx9", "FAILED"⟩).2.transactions "tx9"
      = some (ProcessPayment NewPaymentService ⟨"u1", ⟨3⟩, "tx9", "FAILED"⟩).1.1 :=
  ⟨rfl, C5_status_assignment NewPaymentService ⟨"u1", ⟨3⟩, "tx9", "FAILED"⟩ rfl⟩

/-- C6 (the store never faults): `ProcessPayment` is a total function of the
store and the candidate (the empty id included); its error is
`ErrAlreadyProcessed` exactly when the id of the candidate was a key of the
store before the call, is `nil` otherwise, and is never anything else. -/
theorem C6_never_faults (p : PaymentService) (t : Transaction) :
    ((ProcessPayment p t).1.2 = some ErrAlreadyProcessed ↔
      (p.transactions t.TransactionID).isSome = true) ∧
    ((ProcessPayment p t).1.2 = none ↔
      (p.transactions t.TransactionID).isSome = false) ∧
    ((ProcessPayment p t).1.2 = none ∨
      (ProcessPayment p t).1.2 = some ErrAlreadyProcessed) := by
  cases hl : p.transactions t.TransactionID with
  | some e => rw [ProcessPayment_of_present p t e hl]; simp
  | none => rw [ProcessPayment_of_absent p t hl]; simp

/-- C9 (invariant I2, per-id state machine): in every store reached from
`NewPaymentService` by a finite sequence of `ProcessPayment` calls, an entry
`r` stored under a key `k` has transaction id `k` and status `SUCCESS` (not
unset, `PENDING` or `FAILED`), and `k` is still recorded after any further
sequence of calls. -/
theorem C9_store_invariant (ts more : List Transaction) (k : String) (r : Transaction)
    (h : (runCalls NewPaymentService ts).transactions k = some r) :
    r.TransactionID = k ∧ r.Status = TransactionStatusSuccess ∧
    r.Status ≠ "" ∧ r.Status ≠ TransactionStatusPending ∧
    r.Status ≠ TransactionStatusFailed ∧
    ((runCalls (runCalls NewPaymentService ts) more).transactions k).isSome = true := by
  obtain ⟨h1, h2⟩ := WellKeyed_runCalls ts NewPaymentService WellKeyed_new k r h
  refine ⟨h1, h2, ?_, ?_, ?_, ?_⟩
  · rw [h2]; decide
  · rw [h2]; decide
  · rw [h2]; decide
  · rw [runCalls_keeps more _ k r h]; rfl

theorem C9_store_invariant_witness :
    (runCalls NewPaymentService
      [⟨"u1", ⟨100⟩, "tx1", "PENDING"⟩, ⟨"u2", ⟨5⟩, "tx1", ""⟩]).transactions "tx1"
      = some ⟨"u1", ⟨100⟩, "tx1", "SUCCESS"⟩ ∧
    ((runCalls (runCalls NewPaymentService
      [⟨"u1", ⟨100⟩, "tx1", "PENDING"⟩, ⟨"u2", ⟨5⟩, "tx1", ""⟩])
      [⟨"u3", ⟨1⟩, "tx2", ""⟩]).transactions "tx1").isSome = true :=
  ⟨by decide,
    (C9_store_invariant [⟨"u1", ⟨100⟩, "tx1", "PENDING"⟩, ⟨"u2", ⟨5⟩, "tx1", ""⟩]
      [⟨"u3", ⟨1⟩, "tx2", ""⟩] "tx1" ⟨"u1", ⟨100⟩, "tx1", "SUCCESS"⟩
      (by decide)).2.2.2.2.2⟩

/-! ## Claims about concurrent callers -/

theorem getElem?_set_cases {l : List Call} {i j : Nat} {c1 x : Call}
    (h : (l.set i c1)[j]? = some x) :
    (j = i ∧ x = c1) ∨ (j ≠ i ∧ l[j]? = some x) := by
  rw [List.getElem?_set] at h
  by_cases hij : i = j
  · left
    rw [if_pos hij] at h
    split at h
    · exact ⟨hij.symm, (Option.some.inj h).symm⟩
    · exact Option.noConfusion h
  · right
    rw [if_neg hij] at h
    exact ⟨fun e => hij e.symm, h⟩

theorem getElem?_set_self_of {l : List Call} {i : Nat} {c c1 : Call}
    (h : l[i]? = some c) : (l.set i c1)[i]? = some c1 := by
  have hi : i < l.length := by
    rcases Nat.lt_or_ge i l.length with h1 | h1
    · exact h1
    · rw [List.getElem?_eq_none h1] at h; exact Option.noConfusion h
  rw [List.getElem?_set]; simp [hi]

theorem getElem?_set_other {l : List Call} {i j : Nat} {c1 : Call} (h : j ≠ i) :
    (l.set i c1)[j]? = l[j]? := by
  rw [List.getElem?_set]; simp [Ne.symm h]

theorem candidate_of_call {k : String} {cs : List Transaction} {s : Shared}
    (hinv : s.Inv k cs) {i : Nat} {c : Call} (hc : s.calls[i]? = some c) :
    ∃ t0, cs[i]? = some t0 ∧ t0.TransactionID = k := by
  have hi : i < cs.length := by
    rw [← hinv.len]
    rcases Nat.lt_or_ge i s.calls.length with h1 | h1
    · exact h1
    · rw [List.getElem?_eq_none h1] at hc; exact Option.noConfusion hc
  refine ⟨cs[i], List.getElem?_eq_getElem hi, hinv.ids _ (List.getElem_mem hi)⟩

theorem won_stored {t0 : Transaction} {st : Option Transaction} {c : Call}
    (h : c.consistent t0 st) (hw : c.phase.won = true) : st.isSome = true := by
  unfold Call.consistent at h
  cases hp : c.phase <;> rw [hp] at h hw <;> simp_all [Phase.won]


theorem phase_critical_false_iff (ph : Phase) :
    ph.critical = false ↔ ph = Phase.start ∨ ∃ r e, ph = Phase.done r e := by
  cases ph <;> simp [Phase.critical]

theorem Inv_update {k : String} {cs : List Transaction} {s : Shared}
    (hinv : s.Inv k cs) {i : Nat} {c : Call} (hc : s.calls[i]? = some c)
    (m1 : Bool) (tr1 : String → Option Transaction) (c1 : Call)
    (h_local : ∀ t0, cs[i]? = some t0 → c1.consistent t0 (tr1 k))
    (h_others : ∀ (j : Nat) (cj : Call) (t0 : Transaction), j ≠ i → s.calls[j]? = some cj →
      cs[j]? = some t0 → cj.consistent t0 (tr1 k))
    (h_crit : c1.phase.critical = true → c.phase.critical = true ∨ s.mu = false)
    (h_mu : m1 = (c1.phase.critical || (s.mu && !c.phase.critical)))
    (h_won : c1.phase.won = true → c.phase.won = true ∨ s.transactions k = none)
    (h_keep : c.phase.won = true → c1.phase.won = true)
    (h_store : (tr1 k).isSome = true → (s.transactions k).isSome = true ∨ c1.phase.won = true) :
    Shared.Inv k cs { mu := m1, transactions := tr1, calls := s.calls.set i c1 } := by
  have no_crit : s.mu = false → ∀ (j : Nat) (cj : Call), s.calls[j]? = some cj →
      cj.phase.critical = true → False := by
    intro hmu j cj hj hcr
    have := hinv.held.mpr ⟨j, cj, hj, hcr⟩
    rw [hmu] at this
    exact Bool.noConfusion this
  have no_won : s.transactions k = none → ∀ (j : Nat) (cj : Call), s.calls[j]? = some cj →
      cj.phase.won = true → False := by
    intro hst j cj hj hw
    obtain ⟨t0, ht0, _⟩ := candidate_of_call hinv hj
    have := won_stored (hinv.local_ok j cj t0 hj ht0) hw
    rw [hst] at this
    exact Bool.noConfusion this
  have self1 : (s.calls.set i c1)[i]? = some c1 := getElem?_set_self_of hc
  refine ⟨?_, hinv.ids, ?_, ?_, ?_, ?_, ?_⟩
  · simp only [List.length_set]; exact hinv.len
  · intro j cj t0 hj ht0
    rcases getElem?_set_cases hj with ⟨rfl, rfl⟩ | ⟨hne, hj0⟩
    · exact h_local t0 ht0
    · exact h_others j cj t0 hne hj0 ht0
  · intro a b ca cb ha hb hca hcb
    rcases getElem?_set_cases ha with ⟨rfl, rfl⟩ | ⟨hna, ha0⟩ <;>
      rcases getElem?_set_cases hb with ⟨rfl, rfl⟩ | ⟨hnb, hb0⟩
    · rfl
    · rcases h_crit hca with h1 | h1
      · exact hinv.excl _ _ _ _ hc hb0 h1 hcb
      · exact (no_crit h1 b cb hb0 hcb).elim
    · rcases h_crit hcb with h1 | h1
      · exact hinv.excl _ _ _ _ ha0 hc hca h1
      · exact (no_crit h1 a ca ha0 hca).elim
    · exact hinv.excl _ _ _ _ ha0 hb0 hca hcb
  · show m1 = true ↔ _
    rw [h_mu]
    constructor
    · intro h
      cases h1 : c1.phase.critical with
      | true => exact ⟨i, c1, self1, h1⟩
      | false =>
        rw [h1] at h
        simp only [Bool.false_or, Bool.and_eq_true, Bool.not_eq_true'] at h
        obtain ⟨j, cj, hj, hcr⟩ := hinv.held.mp h.1
        have hji : j ≠ i := by
          rintro rfl
          rw [hc] at hj
          cases hj
          rw [h.2] at hcr
          exact Bool.noConfusion hcr
        exact ⟨j, cj, by rw [getElem?_set_other hji]; exact hj, hcr⟩
    · rintro ⟨j, cj, hj, hcr⟩
      rcases getElem?_set_cases hj with ⟨rfl, rfl⟩ | ⟨hne, hj0⟩
      · simp [hcr]
      · have hmu : s.mu = true := hinv.held.mpr ⟨j, cj, hj0, hcr⟩
        have hcn : c.phase.critical = false := by
          cases h1 : c.phase.critical with
          | false => rfl
          | true => exact (hne (hinv.excl _ _ _ _ hj0 hc hcr h1)).elim
        simp [hmu, hcn]
  · intro a b ca cb ha hb hwa hwb
    rcases getElem?_set_cases ha with ⟨rfl, rfl⟩ | ⟨hna, ha0⟩ <;>
      rcases getElem?_set_cases hb with ⟨rfl, rfl⟩ | ⟨hnb, hb0⟩
    · rfl
    · rcases h_won hwa with h1 | h1
      · exact hinv.one_winner _ _ _ _ hc hb0 h1 hwb
      · exact (no_won h1 b cb hb0 hwb).elim
    · rcases h_won hwb with h1 | h1
      · exact hinv.one_winner _ _ _ _ ha0 hc hwa h1
      · exact (no_won h1 a ca ha0 hwa).elim
    · exact hinv.one_winner _ _ _ _ ha0 hb0 hwa hwb
  · intro hst
    rcases h_store hst with h1 | h1
    · obtain ⟨j, cj, hj, hw⟩ := hinv.has_winner h1
      by_cases hji : j = i
      · subst hji
        rw [hc] at hj
        cases hj
        exact ⟨j, c1, self1, h_keep hw⟩
      · exact ⟨j, cj, by rw [getElem?_set_other hji]; exact hj, hw⟩
    · exact ⟨i, c1, self1, h1⟩

theorem Inv_step {k : String} {cs : List Transaction} {s s1 : Shared} {i : Nat}
    (hinv : s.Inv k cs) (h : step s i = some s1) : s1.Inv k cs := by
  unfold step at h
  cases hc : s.calls[i]? with
  | none => rw [hc] at h; exact Option.noConfusion h
  | some c =>
    rw [hc] at h
    obtain ⟨t0, ht0, hk0⟩ := candidate_of_call hinv hc
    have hloc := hinv.local_ok i c t0 hc ht0
    unfold Call.consistent at hloc
    have others_same : ∀ (j : Nat) (cj : Call) (t : Transaction), j ≠ i →
        s.calls[j]? = some cj → cs[j]? = some t → cj.consistent t (s.transactions k) :=
      fun j cj t _ hj ht => hinv.local_ok j cj t hj ht
    cases hp : c.phase with
    | start =>
      rw [hp] at hloc
      simp only [hp] at h
      cases hmu : s.mu with
      | true => rw [hmu] at h; simp at h
      | false =>
        rw [hmu] at h
        simp only [Bool.false_eq_true, if_false, Option.some.injEq] at h
        subst h
        refine Inv_update hinv hc _ _ _ ?_ others_same ?_ ?_ ?_ ?_ ?_
        · intro t ht
          rw [ht0] at ht; cases ht
          simpa [Call.consistent] using hloc
        · intro _; right; exact hmu
        · simp [Phase.critical]
        · simp [Phase.won]
        · simp [hp, Phase.won]
        · intro hs; left; exact hs
    | locked =>
      rw [hp] at hloc
      simp only [hp] at h
      have hid : c.t.TransactionID = k := by rw [hloc]; exact hk0
      rw [hid] at h
      cases hst : s.transactions k with
      | some e =>
        rw [hst] at h
        simp only [Option.some.injEq] at h
        subst h
        refine Inv_update hinv hc _ _ _ ?_ others_same ?_ ?_ ?_ ?_ ?_
        · intro t ht
          simp [Call.consistent, hst]
        · intro _; left; simp [hp, Phase.critical]
        · have := hinv.held.mpr ⟨i, c, hc, by simp [hp, Phase.critical]⟩
          simp [hp, Phase.critical, this]
        · simp [Phase.won]
        · simp [hp, Phase.won]
        · intro hs; left; exact hs
      | none =>
        rw [hst] at h
        simp only [Option.some.injEq] at h
        subst h
        refine Inv_update hinv hc _ _ _ ?_ others_same ?_ ?_ ?_ ?_ ?_
        · intro t ht
          rw [ht0] at ht; cases ht
          simp [Call.consistent, hst, hloc]
        · intro _; left; simp [hp, Phase.critical]
        · have := hinv.held.mpr ⟨i, c, hc, by simp [hp, Phase.critical]⟩
          simp [hp, Phase.critical, this]
        · simp [Phase.won]
        · simp [hp, Phase.won]
        · intro hs; left; exact hs
    | absent =>
      rw [hp] at hloc
      simp only [hp, Option.some.injEq] at h
      subst h
      refine Inv_update hinv hc _ _ _ ?_ others_same ?_ ?_ ?_ ?_ ?_
      · intro t ht
        rw [ht0] at ht; cases ht
        simp [Call.consistent, hloc.1, hloc.2]
      · intro _; left; simp [hp, Phase.critical]
      · have := hinv.held.mpr ⟨i, c, hc, by simp [hp, Phase.critical]⟩
        simp [hp, Phase.critical, this]
      · simp [Phase.won]
      · simp [hp, Phase.won]
      · intro hs; left; exact hs
    | marked =>
      rw [hp] at hloc
      simp only [hp, Option.some.injEq] at h
      subst h
      have hid : c.t.TransactionID = k := by rw [hloc.1]; exact hk0
      have hnew : mapStore s.transactions c.t.TransactionID c.t k = some c.t := by
        simp [mapStore, hid]
      refine Inv_update hinv hc _ _ _ ?_ ?_ ?_ ?_ ?_ ?_ ?_
      · intro t ht
        rw [ht0] at ht; cases ht
        simp [Call.consistent, hloc.1, mapStore, hk0]
      · intro j cj t hji hj ht
        have hold := hinv.local_ok j cj t hj ht
        have hncr : cj.phase.critical = false := by
          cases h1 : cj.phase.critical with
          | false => rfl
          | true =>
            exact (hji (hinv.excl _ _ _ _ hj hc h1 (by simp [hp, Phase.critical]))).elim
        rcases (phase_critical_false_iff _).mp hncr with h1 | ⟨r, e, h1⟩
        · unfold Call.consistent at hold ⊢
          rw [h1] at hold ⊢
          exact hold
        · unfold Call.consistent at hold
          rw [h1] at hold
          rw [hloc.2] at hold
          exact Option.noConfusion hold.1
      · intro _; left; simp [hp, Phase.critical]
      · have := hinv.held.mpr ⟨i, c, hc, by simp [hp, Phase.critical]⟩
        simp [hp, Phase.critical, this]
      · intro _; right; exact hloc.2
      · simp [hp, Phase.won]
      · intro _; right; simp [Phase.won]
    | returning r e =>
      rw [hp] at hloc
      simp only [hp, Option.some.injEq] at h
      subst h
      refine Inv_update hinv hc _ _ _ ?_ others_same ?_ ?_ ?_ ?_ ?_
      · intro t ht
        rw [ht0] at ht; cases ht
        simpa [Call.consistent] using hloc
      · simp [Phase.critical]
      · simp [hp, Phase.critical]
      · intro hw; left
        cases e <;> simp_all [Phase.won]
      · intro hw
        cases e <;> simp_all [Phase.won]
      · intro hs; left; exact hs
    | done r e =>
      simp only [hp] at h
      exact Option.noConfusion h

theorem Inv_exec {k : String} {cs : List Transaction} (sched : List Nat) :
    ∀ {s s1 : Shared}, s.Inv k cs → exec s sched = some s1 → s1.Inv k cs := by
  induction sched with
  | nil =>
    intro s s1 hinv h
    simp only [exec, Option.some.injEq] at h
    subst h; exact hinv
  | cons i rest ih =>
    intro s s1 hinv h
    simp only [exec] at h
    cases hs : step s i with
    | none => rw [hs] at h; exact Option.noConfusion h
    | some s2 =>
      rw [hs] at h
      exact ih (Inv_step hinv hs) h

theorem spawn_getElem? (p : PaymentService) (cs : List Transaction) (i : Nat) (c : Call)
    (h : (spawn p cs).calls[i]? = some c) :
    ∃ t0, cs[i]? = some t0 ∧ c = { t := t0, phase := Phase.start } := by
  simp only [spawn, List.getElem?_map] at h
  cases ht : cs[i]? with
  | none => rw [ht] at h; exact Option.noConfusion h
  | some t0 =>
    rw [ht] at h
    exact ⟨t0, rfl, (Option.some.inj h).symm⟩

theorem Inv_spawn (p : PaymentService) (k : String) (cs : List Transaction)
    (hid : ∀ t : Transaction, t ∈ cs → t.TransactionID = k)
    (hk : p.transactions k = none) : (spawn p cs).Inv k cs := by
  refine ⟨?_, hid, ?_, ?_, ?_, ?_, ?_⟩
  · simp [spawn]
  · intro i c t0 hc ht0
    obtain ⟨t, ht, rfl⟩ := spawn_getElem? p cs i c hc
    rw [ht0] at ht; cases ht
    simp [Call.consistent]
  · intro i j ci cj hi _ hcr _
    obtain ⟨t, _, rfl⟩ := spawn_getElem? p cs i ci hi
    simp [Phase.critical] at hcr
  · constructor
    · intro h; simp [spawn] at h
    · rintro ⟨i, c, hc, hcr⟩
      obtain ⟨t, _, rfl⟩ := spawn_getElem? p cs i c hc
      simp [Phase.critical] at hcr
  · intro i j ci cj hi _ hw _
    obtain ⟨t, _, rfl⟩ := spawn_getElem? p cs i ci hi
    simp [Phase.won] at hw
  · intro h
    simp [spawn, hk] at h

theorem sum_fuel_set (l : List Call) :
    ∀ (i : Nat) (c c1 : Call), l[i]? = some c →
      ((l.set i c1).map (fun c => c.phase.fuel)).sum + c.phase.fuel
        = (l.map (fun c => c.phase.fuel)).sum + c1.phase.fuel := by
  induction l with
  | nil => intro i c c1 h; simp at h
  | cons a l ih =>
    intro i c c1 h
    cases i with
    | zero =>
      simp only [List.getElem?_cons_zero, Option.some.injEq] at h
      subst h
      simp only [List.set_cons_zero, List.map_cons, List.sum_cons]
      omega
    | succ n =>
      simp only [List.getElem?_cons_succ] at h
      have := ih n c c1 h
      simp only [List.set_cons_succ, List.map_cons, List.sum_cons]
      omega

theorem step_fuel {s s1 : Shared} {i : Nat} (h : step s i = some s1) :
    s1.fuel + 1 ≤ s.fuel := by
  unfold step at h
  cases hc : s.calls[i]? with
  | none => rw [hc] at h; exact Option.noConfusion h
  | some c =>
    rw [hc] at h
    have key : ∀ c1 : Call, c1.phase.fuel + 1 ≤ c.phase.fuel →
        ((s.calls.set i c1).map (fun c => c.phase.fuel)).sum + 1
          ≤ (s.calls.map (fun c => c.phase.fuel)).sum := by
      intro c1 hlt
      have := sum_fuel_set s.calls i c c1 hc
      omega
    cases hp : c.phase with
    | start =>
      simp only [hp] at h
      cases hmu : s.mu with
      | true => rw [hmu] at h; simp at h
      | false =>
        rw [hmu] at h
        simp only [Bool.false_eq_true, if_false, Option.some.injEq] at h
        subst h
        exact key _ (by simp [hp, Phase.fuel])
    | locked =>
      simp only [hp] at h
      cases hst : s.transactions c.t.TransactionID with
      | some e =>
        rw [hst] at h
        simp only [Option.some.injEq] at h
        subst h
        exact key _ (by simp [hp, Phase.fuel])
      | none =>
        rw [hst] at h
        simp only [Option.some.injEq] at h
        subst h
        exact key _ (by simp [hp, Phase.fuel])
    | absent =>
      simp only [hp, Option.some.injEq] at h
      subst h
      exact key _ (by simp [hp, Phase.fuel])
    | marked =>
      simp only [hp, Option.some.injEq] at h
      subst h
      exact key _ (by simp [hp, Phase.fuel])
    | returning r e =>
      simp only [hp, Option.some.injEq] at h
      subst h
      exact key _ (by simp [hp, Phase.fuel])
    | done r e =>
      simp only [hp] at h
      exact Option.noConfusion h

theorem exec_fuel (sched : List Nat) :
    ∀ {s s1 : Shared}, exec s sched = some s1 → sched.length + s1.fuel ≤ s.fuel := by
  induction sched with
  | nil =>
    intro s s1 h
    simp only [exec, Option.some.injEq] at h
    subst h; simp
  | cons i rest ih =>
    intro s s1 h
    simp only [exec] at h
    cases hs : step s i with
    | none => rw [hs] at h; exact Option.noConfusion h
    | some s2 =>
      rw [hs] at h
      have h1 := step_fuel hs
      have h2 := ih h
      simp only [List.length_cons]
      omega

theorem spawn_fuel (p : PaymentService) (cs : List Transaction) :
    (spawn p cs).fuel = 5 * cs.length := by
  induction cs with
  | nil => rfl
  | cons t cs ih =>
    simp only [Shared.fuel, spawn, List.map_cons, List.sum_cons, List.length_cons,
      Phase.fuel] at ih ⊢
    omega

theorem Inv_progress {k : String} {cs : List Transaction} {s : Shared}
    (hinv : s.Inv k cs) (h : ∃ c, c ∈ s.calls ∧ c.outcome = none) :
    ∃ i, i < cs.length ∧ (step s i).isSome = true := by
  have enabled_of_critical : ∀ (i : Nat) (c : Call), s.calls[i]? = some c →
      c.phase.critical = true → (step s i).isSome = true := by
    intro i c hc hcr
    unfold step
    rw [hc]
    cases hp : c.phase with
    | start => rw [hp] at hcr; simp [Phase.critical] at hcr
    | locked => simp only [hp]; cases s.transactions c.t.TransactionID <;> rfl
    | absent => simp [hp]
    | marked => simp [hp]
    | returning r e => simp [hp]
    | done r e => rw [hp] at hcr; simp [Phase.critical] at hcr
  have bound : ∀ (i : Nat) (c : Call), s.calls[i]? = some c → i < cs.length := by
    intro i c hc
    rw [← hinv.len]
    rcases Nat.lt_or_ge i s.calls.length with h1 | h1
    · exact h1
    · rw [List.getElem?_eq_none h1] at hc; exact Option.noConfusion hc
  cases hmu : s.mu with
  | true =>
    obtain ⟨i, c, hc, hcr⟩ := hinv.held.mp hmu
    exact ⟨i, bound i c hc, enabled_of_critical i c hc hcr⟩
  | false =>
    obtain ⟨c, hmem, hout⟩ := h
    obtain ⟨i, hc⟩ := List.getElem?_of_mem hmem
    have hncr : c.phase.critical = false := by
      cases h1 : c.phase.critical with
      | false => rfl
      | true =>
        have := hinv.held.mpr ⟨i, c, hc, h1⟩
        rw [hmu] at this; exact Bool.noConfusion this
    refine ⟨i, bound i c hc, ?_⟩
    rcases (phase_critical_false_iff _).mp hncr with h1 | ⟨r, e, h1⟩
    · unfold step
      rw [hc]
      simp [h1, hmu]
    · simp [Call.outcome, h1] at hout

theorem done_of_outcome {c : Call} (h : c.outcome ≠ none) :
    ∃ r e, c.phase = Phase.done r e ∧ c.outcome = some (r, e) := by
  unfold Call.outcome at h ⊢
  cases hp : c.phase <;> rw [hp] at h <;> simp at h ⊢

theorem Inv_outcome {k : String} {cs : List Transaction} {s : Shared}
    (hinv : s.Inv k cs) (hN : 1 ≤ cs.length)
    (hall : ∀ c, c ∈ s.calls → c.outcome ≠ none) :
    ∃ w tw, cs[w]? = some tw ∧
      s.transactions k = some { tw with Status := TransactionStatusSuccess } ∧
      ∀ i, i < cs.length →
        (s.calls[i]?).bind Call.outcome
          = some ({ tw with Status := TransactionStatusSuccess },
              if i = w then none else some ErrAlreadyProcessed) := by
  have h0 : 0 < s.calls.length := by rw [hinv.len]; exact hN
  have hc0 : s.calls[0]? = some s.calls[0] := List.getElem?_eq_getElem h0
  obtain ⟨r0, e0, hp0, _⟩ := done_of_outcome (hall _ (List.getElem_mem h0))
  obtain ⟨t0, ht0, _⟩ := candidate_of_call hinv hc0
  have hl0 := hinv.local_ok 0 _ t0 hc0 ht0
  unfold Call.consistent at hl0
  rw [hp0] at hl0
  obtain ⟨w, cw, hcw, hwon⟩ := hinv.has_winner (by rw [hl0.1]; rfl)
  obtain ⟨tw, htw, _⟩ := candidate_of_call hinv hcw
  obtain ⟨rw, ew, hpw, _⟩ := done_of_outcome (hall _ (List.getElem?_mem hcw))
  have hlw := hinv.local_ok w cw tw hcw htw
  unfold Call.consistent at hlw
  rw [hpw] at hlw hwon
  have hew : ew = none := by
    cases ew with
    | none => rfl
    | some e => simp [Phase.won] at hwon
  have hrw : rw = { tw with Status := TransactionStatusSuccess } := hlw.2.1 hew
  have hstore : s.transactions k = some { tw with Status := TransactionStatusSuccess } := by
    rw [← hrw]; exact hlw.1
  refine ⟨w, tw, htw, hstore, ?_⟩
  intro i hi
  have hi2 : i < s.calls.length := by rw [hinv.len]; exact hi
  have hci : s.calls[i]? = some s.calls[i] := List.getElem?_eq_getElem hi2
  obtain ⟨ri, ei, hpi, houti⟩ := done_of_outcome (hall _ (List.getElem_mem hi2))
  obtain ⟨ti, hti, _⟩ := candidate_of_call hinv hci
  have hli := hinv.local_ok i _ ti hci hti
  unfold Call.consistent at hli
  rw [hpi] at hli
  have hri : ri = { tw with Status := TransactionStatusSuccess } := by
    have := hli.1
    rw [hstore] at this
    exact (Option.some.inj this).symm
  rw [hci, Option.some_bind, houti, hri]
  by_cases hiw : i = w
  · subst hiw
    rw [hcw] at hci
    have hcc : cw = s.calls[i] := Option.some.inj hci
    rw [← hcc, hpw] at hpi
    have : ei = ew := by
      simp only [Phase.done.injEq] at hpi
      exact hpi.2.symm
    rw [this, hew]
    simp
  · have hne : ei ≠ none := by
      intro he
      apply hiw
      exact hinv.one_winner i w _ cw hci hcw (by rw [hpi, he]; rfl) (by rw [hpw]; exact hwon)
    rcases hli.2.2 with h1 | h1
    · exact (hne h1).elim
    · rw [h1]; simp [hiw]

/-- C3 (P2, first writer wins under race): `N ≥ 1` calls of `ProcessPayment`, all
with the id `k` that the store does not hold yet, run concurrently. For every
interleaving of their statements under the mutex: the interleaving has at most
`5 N` steps; as long as some call has not returned, some call can move; and
once all have returned, there is one call `w` that returned a `nil` error, all
others returned `ErrAlreadyProcessed`, and all returned (and the store holds)
the same record, the candidate of `w` with status `SUCCESS`. -/
theorem C3_first_writer_wins (p : PaymentService) (k : String) (cs : List Transaction)
    (sched : List Nat) (s : Shared)
    (hN : 1 ≤ cs.length)
    (hid : ∀ t : Transaction, t ∈ cs → t.TransactionID = k)
    (hk : p.transactions k = none)
    (hrun : exec (spawn p cs) sched = some s) :
    sched.length ≤ 5 * cs.length ∧
    ((∃ c, c ∈ s.calls ∧ c.outcome = none) →
      ∃ i, i < cs.length ∧ (step s i).isSome = true) ∧
    ((∀ c, c ∈ s.calls → c.outcome ≠ none) →
      ∃ w tw, cs[w]? = some tw ∧
        s.transactions k = some { tw with Status := TransactionStatusSuccess } ∧
        ∀ i, i < cs.length →
          (s.calls[i]?).bind Call.outcome
            = some ({ tw with Status := TransactionStatusSuccess },
                if i = w then none else some ErrAlreadyProcessed)) := by
  have hinv : s.Inv k cs := Inv_exec sched (Inv_spawn p k cs hid hk) hrun
  refine ⟨?_, Inv_progress hinv, Inv_outcome hinv hN⟩
  have := exec_fuel sched hrun
  rw [spawn_fuel] at this
  omega

theorem C3_first_writer_wins_witness :
    exec (spawn NewPaymentService [⟨"u1", ⟨100⟩, "race1", ""⟩, ⟨"u2", ⟨50⟩, "race1", "PENDING"⟩])
        [1, 1, 1, 1, 1, 0, 0, 0]
      = some
        { mu := false,
          transactions := mapStore NewPaymentService.transactions "race1"
            ⟨"u2", ⟨50⟩, "race1", "SUCCESS"⟩,
          calls := [⟨⟨"u1", ⟨100⟩, "race1", ""⟩,
                      Phase.done ⟨"u2", ⟨50⟩, "race1", "SUCCESS"⟩ (some ErrAlreadyProcessed)⟩,
                    ⟨⟨"u2", ⟨50⟩, "race1", "SUCCESS"⟩,
                      Phase.done ⟨"u2", ⟨50⟩, "race1", "SUCCESS"⟩ none⟩] } ∧
    ∃ w tw, [(⟨"u1", ⟨100⟩, "race1", ""⟩ : Transaction), ⟨"u2", ⟨50⟩, "race1", "PENDING"⟩][w]?
        = some tw ∧
      mapStore NewPaymentService.transactions "race1" ⟨"u2", ⟨50⟩, "race1", "SUCCESS"⟩ "race1"
        = some { tw with Status := TransactionStatusSuccess } ∧
      ∀ i, i < 2 →
        ([(⟨⟨"u1", ⟨100⟩, "race1", ""⟩,
              Phase.done ⟨"u2", ⟨50⟩, "race1", "SUCCESS"⟩ (some ErrAlreadyProcessed)⟩ : Call),
            ⟨⟨"u2", ⟨50⟩, "race1", "SUCCESS"⟩,
              Phase.done ⟨"u2", ⟨50⟩, "race1", "SUCCESS"⟩ none⟩][i]?).bind
            Call.outcome
          = some ({ tw with Status := TransactionStatusSuccess },
              if i = w then none else some ErrAlreadyProcessed) :=
  ⟨rfl,
    (C3_first_writer_wins NewPaymentService "race1"
      [⟨"u1", ⟨100⟩, "race1", ""⟩, ⟨"u2", ⟨50⟩, "race1", "PENDING"⟩]
      [1, 1, 1, 1, 1, 0, 0, 0] _ (by decide) (by decide) rfl rfl).2.2 (by decide)⟩

end Service

/-! ## Claims about the handler -/

namespace Api

open Service Http

theorem WriteHeader_fresh (w : ResponseWriter) (c : Nat) (hw : w.wroteHeader = false) :
    w.WriteHeader c = { w with wroteHeader := true, code := c, sent := w.header } := by
  simp [ResponseWriter.WriteHeader, hw]

theorem Error_fresh (w : ResponseWriter) (msg : String) (c : Nat)
    (hw : w.wroteHeader = false) :
    (Http.Error w msg c).code = c ∧ (Http.Error w msg c).wroteHeader = true ∧
    (Http.Error w msg c).body = w.body ++ (msg ++ "\n") := by
  simp [Http.Error, ResponseWriter.Write, ResponseWriter.WriteHeader, hw]

theorem writeResult_committed (enc : Transaction → Option String) (w : ResponseWriter)
    (c : Nat) (t : Transaction) (hw : w.wroteHeader = false) :
    (writeResult enc (w.WriteHeader c) t).code = c ∧
    (writeResult enc (w.WriteHeader c) t).sent = w.header ∧
    (writeResult enc (w.WriteHeader c) t).header
      = w.header.Set "Content-Type" "application/json" ∧
    (writeResult enc (w.WriteHeader c) t).body = w.body ++ (enc t).getD "" := by
  rw [WriteHeader_fresh w c hw]
  cases he : enc t <;>
    simp [writeResult, he, ResponseWriter.Write, ResponseWriter.SetHeader]

theorem Pay_decoded (dec : String → Option Transaction) (enc : Transaction → Option String)
    (h : Handler) (w : ResponseWriter) (r : Request) (t : Transaction)
    (hm : r.Method = MethodPost) (hd : dec r.Body = some t) :
    Pay dec enc h w r =
      ({ h with Service := (ProcessPayment h.Service t).2 },
        writeResult enc
          (w.WriteHeader (if (h.Service.transactions t.TransactionID).isSome
            then StatusOK else StatusCreated))
          (ProcessPayment h.Service t).1.1) := by
  cases hl : h.Service.transactions t.TransactionID with
  | some e =>
    simp [Pay, PayVia, hm, hd, ProcessPayment_of_present _ t e hl]
  | none =>
    simp [Pay, PayVia, hm, hd, ProcessPayment_of_absent _ t hl]

/-- C7 (handler outcome mapping): for a POST request whose body decodes to `t`,
sent to a writer whose header is not yet written, `Pay` never answers 500; it
answers 201 when the id of `t` was not recorded and 200 when it was; the body
it writes is the encoding of the record returned by the store, which for a 200
is the stored record; and after a 201 a second POST of the same request gets
200. -/
theorem C7_outcome_mapping (dec : String → Option Transaction)
    (enc : Transaction → Option String) (h : Handler) (w w2 : ResponseWriter)
    (r : Request) (t : Transaction)
    (hm : r.Method = MethodPost) (hd : dec r.Body = some t)
    (hw : w.wroteHeader = false) (hw2 : w2.wroteHeader = false) :
    (Pay dec enc h w r).2.code ≠ StatusInternalServerError ∧
    (Pay dec enc h w r).1.Service = (ProcessPayment h.Service t).2 ∧
    (Pay dec enc h w r).2.body
      = w.body ++ (enc (ProcessPayment h.Service t).1.1).getD "" ∧
    (h.Service.transactions t.TransactionID = none →
      (Pay dec enc h w r).2.code = StatusCreated ∧
      (Pay dec enc (Pay dec enc h w r).1 w2 r).2.code = StatusOK) ∧
    (∀ stored, h.Service.transactions t.TransactionID = some stored →
      (Pay dec enc h w r).2.code = StatusOK ∧
      (Pay dec enc h w r).2.body = w.body ++ (enc stored).getD "") := by
  have key := Pay_decoded dec enc h w r t hm hd
  refine ⟨?_, ?_, ?_, ?_, ?_⟩
  · rw [key]
    simp only [(writeResult_committed enc w _ _ hw).1]
    split <;> decide
  · rw [key]
  · rw [key]
    exact (writeResult_committed enc w _ _ hw).2.2.2
  · intro habs
    constructor
    · rw [key]
      simp [(writeResult_committed enc w _ _ hw).1, habs]
    · have hrec : ((ProcessPayment h.Service t).2.transactions t.TransactionID).isSome
          = true := by
        rw [ProcessPayment_of_absent _ t habs]; simp [mapStore]
      rw [Pay_decoded dec enc _ w2 r t hm hd]
      simp only [(writeResult_committed enc w2 _ _ hw2).1]
      rw [key]
      simp [hrec]
  · intro stored hst
    rw [key]
    refine ⟨?_, ?_⟩
    · simp [(writeResult_committed enc w _ _ hw).1, hst]
    · rw [(writeResult_committed enc w _ _ hw).2.2.2, ProcessPayment_of_present _ t _ hst]

theorem C7_outcome_mapping_witness :
    ((Pay (fun _ => some ⟨"user123", ⟨100⟩, "tx123", ""⟩) (fun t => some t.UserID)
        (NewHandler NewPaymentService) NewRecorder ⟨"POST", "body"⟩).2.code = StatusCreated ∧
      (Pay (fun _ => some ⟨"user123", ⟨100⟩, "tx123", ""⟩) (fun t => some t.UserID)
        (Pay (fun _ => some ⟨"user123", ⟨100⟩, "tx123", ""⟩) (fun t => some t.UserID)
          (NewHandler NewPaymentService) NewRecorder ⟨"POST", "body"⟩).1
        NewRecorder ⟨"POST", "body"⟩).2.code = StatusOK) ∧
    ((Pay (fun _ => some ⟨"user9", ⟨7⟩, "tx123", "FAILED"⟩) (fun t => some t.UserID)
        (NewHandler (ProcessPayment NewPaymentService ⟨"user123", ⟨100⟩, "tx123", ""⟩).2)
        NewRecorder ⟨"POST", "replay"⟩).2.code = StatusOK ∧
      (Pay (fun _ => some ⟨"user9", ⟨7⟩, "tx123", "FAILED"⟩) (fun t => some t.UserID)
        (NewHandler (ProcessPayment NewPaymentService ⟨"user123", ⟨100⟩, "tx123", ""⟩).2)
        NewRecorder ⟨"POST", "replay"⟩).2.body = "user123") :=
  ⟨(C7_outcome_mapping (fun _ => some ⟨"user123", ⟨100⟩, "tx123", ""⟩)
      (fun t => some t.UserID) (NewHandler NewPaymentService) NewRecorder NewRecorder
      ⟨"POST", "body"⟩ ⟨"user123", ⟨100⟩, "tx123", ""⟩ rfl rfl rfl rfl).2.2.2.1 rfl,
    (C7_outcome_mapping (fun _ => some ⟨"user9", ⟨7⟩, "tx123", "FAILED"⟩)
      (fun t => some t.UserID)
      (NewHandler (ProcessPayment NewPaymentService ⟨"user123", ⟨100⟩, "tx123", ""⟩).2)
      NewRecorder NewRecorder ⟨"POST", "replay"⟩ ⟨"user9", ⟨7⟩, "tx123", "FAILED"⟩
      rfl rfl rfl rfl).2.2.2.2 ⟨"user123", ⟨100⟩, "tx123", "SUCCESS"⟩ (by decide)⟩

/-- C8 (rejected at the boundary): for a request whose method is not POST or
whose body does not decode, sent to a writer whose header is not yet written,
`Pay` answers 405 for a non-POST method and otherwise 400, leaves the service
exactly as it was, and does not depend on the store operation at all (it gives
the same outcome through any `process`, so `ProcessPayment` is not called). -/
theorem C8_rejected_at_boundary
    (process : PaymentService → Transaction → (Transaction × Option GoError) × PaymentService)
    (dec : String → Option Transaction) (enc : Transaction → Option String)
    (h : Handler) (w : ResponseWriter) (r : Request)
    (hw : w.wroteHeader = false)
    (hbad : r.Method ≠ MethodPost ∨ dec r.Body = none) :
    (Pay dec enc h w r).2.code
      = (if r.Method ≠ MethodPost then StatusMethodNotAllowed else StatusBadRequest) ∧
    (400 ≤ (Pay dec enc h w r).2.code ∧ (Pay dec enc h w r).2.code < 500) ∧
    (Pay dec enc h w r).1 = h ∧
    PayVia process dec enc h w r = Pay dec enc h w r := by
  by_cases hm : r.Method = MethodPost
  · have hd : dec r.Body = none := by
      rcases hbad with h1 | h1
      · exact absurd hm h1
      · exact h1
    have e : ∀ f, PayVia f dec enc h w r
        = (h, Http.Error w "invalid request body format" StatusBadRequest) := by
      intro f; simp [PayVia, hm, hd]
    rw [Pay, e, e]
    simp [hm, (Error_fresh w _ _ hw).1, StatusBadRequest]
  · have e : ∀ f, PayVia f dec enc h w r
        = (h, Http.Error w "Method not allowed" StatusMethodNotAllowed) := by
      intro f; simp [PayVia, hm]
    rw [Pay, e, e]
    simp [hm, (Error_fresh w _ _ hw).1, StatusMethodNotAllowed]

theorem C8_rejected_at_boundary_witness :
    ((Pay (fun _ => some ⟨"user123", ⟨100⟩, "tx123", ""⟩) (fun t => some t.UserID)
        (NewHandler NewPaymentService) NewRecorder ⟨"GET", "body"⟩).2.code = 405 ∧
      (Pay (fun _ => some ⟨"user123", ⟨100⟩, "tx123", ""⟩) (fun t => some t.UserID)
        (NewHandler NewPaymentService) NewRecorder ⟨"GET", "body"⟩).1
        = NewHandler NewPaymentService) ∧
    ((Pay (fun _ => none) (fun t => some t.UserID)
        (NewHandler NewPaymentService) NewRecorder ⟨"POST", "not json"⟩).2.code = 400 ∧
      (Pay (fun _ => none) (fun t => some t.UserID)
        (NewHandler NewPaymentService) NewRecorder ⟨"POST", "not json"⟩).1
        = NewHandler NewPaymentService) :=
  ⟨⟨(C8_rejected_at_boundary ProcessPayment (fun _ => some ⟨"user123", ⟨100⟩, "tx123", ""⟩)
      (fun t => some t.UserID) (NewHandler NewPaymentService) NewRecorder ⟨"GET", "body"⟩
      rfl (Or.inl (by decide))).1,
    (C8_rejected_at_boundary ProcessPayment (fun _ => some ⟨"user123", ⟨100⟩, "tx123", ""⟩)
      (fun t => some t.UserID) (NewHandler NewPaymentService) NewRecorder ⟨"GET", "body"⟩
      rfl (Or.inl (by decide))).2.2.1⟩,
   ⟨(C8_rejected_at_boundary ProcessPayment (fun _ => none)
      (fun t => some t.UserID) (NewHandler NewPaymentService) NewRecorder
      ⟨"POST", "not json"⟩ rfl (Or.inr rfl)).1,
    (C8_rejected_at_boundary ProcessPayment (fun _ => none)
      (fun t => some t.UserID) (NewHandler NewPaymentService) NewRecorder
      ⟨"POST", "not json"⟩ rfl (Or.inr rfl)).2.2.1⟩⟩

theorem Pay_sent_header (dec : String → Option Transaction)
    (enc : Transaction → Option String) (h : Handler) (w : ResponseWriter)
    (r : Request) (t : Transaction)
    (hm : r.Method = MethodPost) (hd : dec r.Body = some t)
    (hw : w.wroteHeader = false) :
    (Pay dec enc h w r).2.sent = w.header ∧
    (Pay dec enc h w r).2.header = w.header.Set "Content-Type" "application/json" := by
  rw [Pay_decoded dec enc h w r t hm hd]
  exact ⟨(writeResult_committed enc w _ _ hw).2.1, (writeResult_committed enc w _ _ hw).2.2.1⟩

/-- C10 (content type of the reply), evaluated on the code: on a new service and
a writer with no headers, the first POST of a decodable transaction is answered
201 and the second 200, and in both replies the headers committed with the
status line carry no `Content-Type`; `application/json` is only in the header
map, where `Pay` puts it after `WriteHeader`. -/
theorem C10_content_type_not_committed :
    (Pay (fun _ => some ⟨"user123", ⟨100⟩, "tx123", ""⟩) (fun t => some t.UserID)
      (NewHandler NewPaymentService) NewRecorder ⟨"POST", "body"⟩).2.code = StatusCreated ∧
    (Pay (fun _ => some ⟨"user123", ⟨100⟩, "tx123", ""⟩) (fun t => some t.UserID)
      (NewHandler NewPaymentService) NewRecorder ⟨"POST", "body"⟩).2.sent.Get
        "Content-Type" = "" ∧
    (Pay (fun _ => some ⟨"user123", ⟨100⟩, "tx123", ""⟩) (fun t => some t.UserID)
      (NewHandler NewPaymentService) NewRecorder ⟨"POST", "body"⟩).2.header.Get
        "Content-Type" = "application/json" ∧
    (Pay (fun _ => some ⟨"user123", ⟨100⟩, "tx123", ""⟩) (fun t => some t.UserID)
      (Pay (fun _ => some ⟨"user123", ⟨100⟩, "tx123", ""⟩) (fun t => some t.UserID)
        (NewHandler NewPaymentService) NewRecorder ⟨"POST", "body"⟩).1
      NewRecorder ⟨"POST", "body"⟩).2.code = StatusOK ∧
    (Pay (fun _ => some ⟨"user123", ⟨100⟩, "tx123", ""⟩) (fun t => some t.UserID)
      (Pay (fun _ => some ⟨"user123", ⟨100⟩, "tx123", ""⟩) (fun t => some t.UserID)
        (NewHandler NewPaymentService) NewRecorder ⟨"POST", "body"⟩).1
      NewRecorder ⟨"POST", "body"⟩).2.sent.Get "Content-Type" = "" := by
  refine ⟨by decide, ?_, ?_, by decide, ?_⟩
  · rw [(Pay_sent_header _ _ _ NewRecorder ⟨"POST", "body"⟩
      ⟨"user123", ⟨100⟩, "tx123", ""⟩ rfl rfl rfl).1]
    rfl
  · rw [(Pay_sent_header _ _ _ NewRecorder ⟨"POST", "body"⟩
      ⟨"user123", ⟨100⟩, "tx123", ""⟩ rfl rfl rfl).2]
    decide
  · rw [(Pay_sent_header _ _ _ NewRecorder ⟨"POST", "body"⟩
      ⟨"user123", ⟨100⟩, "tx123", ""⟩ rfl rfl rfl).1]
    rfl

end Api
